import Mathlib

/-!
Verification development for the polymarket arbitrage bot.

Shallow embedding of the Python sources:
* `src/src/websocket_client.py` — `OrderbookLevel`, `OrderbookSnapshot`
  (`best_bid`, `best_ask`, `from_message`);
* `apps/arb_runner.py` — `ArbTrade`, `AskArbStrategy` (`total_profit`,
  `can_trade`, `handle_book`'s signal condition, `_handle_arb`);
* `lib/price_tracker.py` — `PricePoint`, `FlashCrashEvent`, `PriceTracker`
  (`record`, `detect_flash_crash`);
* `lib/position_manager.py` — `Position`, `PositionManager` (`open_position`);
* `lib/market_manager.py` — `MarketInfo` (`slug_timestamp`),
  `MarketManager._market_sort_key`, `MarketManager._should_switch_market`;
* `src/src/crypto.py` — `KeyManager.encrypt` / `KeyManager.decrypt`.

Python floats are modelled as rationals (ℚ): every quantity the claims touch
is produced by field-exact comparisons and +, −, ×, min on literal-scale
values.  Python `str` values are modelled as Lean `String`, with the string
operations the sources use re-implemented structurally over `String.data`
(`List Char`) so that they evaluate inside the kernel.  Python dicts are
modelled as insertion-ordered association lists, matching dict semantics.
-/

namespace PolyArb

/-! ## Orderbook model (`src/src/websocket_client.py`) -/

/-- One price level of an order book: `OrderbookLevel` (price, size). -/
structure OrderbookLevel where
  price : ℚ
  size : ℚ
deriving DecidableEq

/-- Python `OrderbookSnapshot`: per-token book with bid and ask ladders. -/
structure OrderbookSnapshot where
  asset_id : String
  market : String
  timestamp : Int
  bids : List OrderbookLevel
  asks : List OrderbookLevel
  hashv : String
deriving DecidableEq

/-- Python `best_bid`: `self.bids[0].price if self.bids else 0.0`. -/
def OrderbookSnapshot.best_bid (ob : OrderbookSnapshot) : ℚ :=
  match ob.bids with
  | [] => 0
  | l :: _ => l.price

/-- Python `best_ask`: `self.asks[0].price if self.asks else 1.0`. -/
def OrderbookSnapshot.best_ask (ob : OrderbookSnapshot) : ℚ :=
  match ob.asks with
  | [] => 1
  | l :: _ => l.price

/-- Comparator for `bids.sort(key=lambda x: x.price, reverse=True)`:
descending by price (stable sort, as Python's). -/
def bid_le (a b : OrderbookLevel) : Bool := decide (b.price ≤ a.price)

/-- Comparator for `asks.sort(key=lambda x: x.price)`: ascending by price. -/
def ask_le (a b : OrderbookLevel) : Bool := decide (a.price ≤ b.price)

/-- Python `OrderbookSnapshot.from_message`: builds the level lists from the parsed
message, sorts bids descending and asks ascending by price.  The JSON field
extraction (`float(b["price"])` …) is the identity once the levels are given
as parsed (price, size) pairs. -/
def OrderbookSnapshot.from_message (asset_id market : String) (timestamp : Int)
    (bids asks : List OrderbookLevel) (hashv : String) : OrderbookSnapshot :=
  { asset_id := asset_id
    market := market
    timestamp := timestamp
    bids := bids.mergeSort bid_le
    asks := asks.mergeSort ask_le
    hashv := hashv }

/-! ## Ask-arbitrage strategy (`apps/arb_runner.py`) -/

/-- The arbitrage signal condition of `AskArbStrategy.run.handle_book`:
`spread = 1.0 - (up.best_ask + down.best_ask)`, fire iff
`spread >= min_spread`. -/
def arb_signal (min_spread : ℚ) (up down : OrderbookSnapshot) : Bool :=
  decide (min_spread ≤ 1 - (up.best_ask + down.best_ask))

/-- C1: `best_ask` is the first ask level's price, or the sentinel 1.0 on an
empty ask ladder; `best_bid` is the first bid level's price, or 0 on an empty
bid ladder.  Consequently, with both sides' books empty the ask sum is 2.0,
the computed spread `1 - ask_sum` is negative, and for any positive
`min_spread` no arbitrage opportunity is signalled. -/
theorem best_prices_empty_books_no_signal :
    (∀ ob : OrderbookSnapshot,
      (ob.asks = [] → ob.best_ask = 1) ∧
      (∀ l ls, ob.asks = l :: ls → ob.best_ask = l.price) ∧
      (ob.bids = [] → ob.best_bid = 0) ∧
      (∀ l ls, ob.bids = l :: ls → ob.best_bid = l.price)) ∧
    (∀ (up down : OrderbookSnapshot) (min_spread : ℚ),
      up.asks = [] → up.bids = [] → down.asks = [] → down.bids = [] →
      0 < min_spread →
      up.best_ask + down.best_ask = 2 ∧
      1 - (up.best_ask + down.best_ask) < 0 ∧
      arb_signal min_spread up down = false) := by
  constructor
  · intro ob
    refine ⟨?_, ?_, ?_, ?_⟩
    · intro h; simp [OrderbookSnapshot.best_ask, h]
    · intro l ls h; simp [OrderbookSnapshot.best_ask, h]
    · intro h; simp [OrderbookSnapshot.best_bid, h]
    · intro l ls h; simp [OrderbookSnapshot.best_bid, h]
  · intro up down min_spread hua _ hda _ hms
    have h1 : up.best_ask = 1 := by simp [OrderbookSnapshot.best_ask, hua]
    have h2 : down.best_ask = 1 := by simp [OrderbookSnapshot.best_ask, hda]
    refine ⟨by rw [h1, h2]; norm_num, by rw [h1, h2]; norm_num, ?_⟩
    simp only [arb_signal, h1, h2, decide_eq_false_iff_not, not_le]
    linarith

/-- C1 witness: instantiation at a concrete empty-book pair with
`min_spread = 0.02`. -/
theorem best_prices_empty_books_no_signal_witness :
    arb_signal (2/100)
      { asset_id := "u", market := "m", timestamp := 0, bids := [], asks := [], hashv := "" }
      { asset_id := "d", market := "m", timestamp := 0, bids := [], asks := [], hashv := "" }
      = false := by
  have h := best_prices_empty_books_no_signal.2
      { asset_id := "u", market := "m", timestamp := 0, bids := [], asks := [], hashv := "" }
      { asset_id := "d", market := "m", timestamp := 0, bids := [], asks := [], hashv := "" }
      (2/100) rfl rfl rfl rfl (by norm_num)
  exact h.2.2

/-- C8 counterexample: with two ask levels at the same price the constructed
snapshot's asks are NOT strictly ascending (and so the claimed strict
invariant fails): sorting does not remove equal prices. -/
theorem from_message_not_strictly_sorted :
    ¬ (List.Pairwise (fun a b : OrderbookLevel => b.price < a.price)
        (OrderbookSnapshot.from_message "a" "m" 0 []
          [⟨1/2, 1⟩, ⟨1/2, 2⟩] "").bids ∧
       List.Pairwise (fun a b : OrderbookLevel => a.price < b.price)
        (OrderbookSnapshot.from_message "a" "m" 0 []
          [⟨1/2, 1⟩, ⟨1/2, 2⟩] "").asks) := by
  rintro ⟨-, hasc⟩
  have hperm : ((OrderbookSnapshot.from_message "a" "m" 0 []
      [⟨1/2, 1⟩, ⟨1/2, 2⟩] "").asks).Perm
      [(⟨1/2, 1⟩ : OrderbookLevel), ⟨1/2, 2⟩] :=
    List.mergeSort_perm _ _
  have hlen : ((OrderbookSnapshot.from_message "a" "m" 0 []
      [⟨1/2, 1⟩, ⟨1/2, 2⟩] "").asks).length = 2 := by
    rw [hperm.length_eq]; rfl
  have hmem : ∀ x ∈ (OrderbookSnapshot.from_message "a" "m" 0 []
      [⟨1/2, 1⟩, ⟨1/2, 2⟩] "").asks, x.price = 1/2 := by
    intro x hx
    have hx2 : x = (⟨1/2, 1⟩ : OrderbookLevel) ∨ x = (⟨1/2, 2⟩ : OrderbookLevel) := by
      simpa using hperm.subset hx
    rcases hx2 with h | h <;> rw [h]
  match hout : (OrderbookSnapshot.from_message "a" "m" 0 []
      [⟨1/2, 1⟩, ⟨1/2, 2⟩] "").asks, hlen with
  | [x, y], _ =>
    rw [hout] at hasc hmem
    have hxy : x.price < y.price := by
      have := List.pairwise_cons.mp hasc
      exact this.1 y (by simp)
    have hx : x.price = 1/2 := hmem x (by simp)
    have hy : y.price = 1/2 := hmem y (by simp)
    rw [hx, hy] at hxy
    exact absurd hxy (by norm_num)

/-- C8 (amended): for every inbound book message, regardless of the input
order of the levels, the constructed snapshot's bids are non-increasing by
price and its asks are non-decreasing by price. -/
theorem from_message_sorted (asset_id market : String) (timestamp : Int)
    (bids asks : List OrderbookLevel) (hashv : String) :
    List.Pairwise (fun a b : OrderbookLevel => b.price ≤ a.price)
      (OrderbookSnapshot.from_message asset_id market timestamp bids asks hashv).bids ∧
    List.Pairwise (fun a b : OrderbookLevel => a.price ≤ b.price)
      (OrderbookSnapshot.from_message asset_id market timestamp bids asks hashv).asks := by
  constructor
  · have h := @List.sorted_mergeSort OrderbookLevel bid_le
      (fun a b c hab hbc => by
        simp only [bid_le, decide_eq_true_eq] at *
        exact le_trans hbc hab)
      (fun a b => by
        simp only [bid_le, Bool.or_eq_true, decide_eq_true_eq]
        exact le_total b.price a.price)
      bids
    exact h.imp (fun {a b} hab => by
      simpa only [bid_le, decide_eq_true_eq] using hab)
  · have h := @List.sorted_mergeSort OrderbookLevel ask_le
      (fun a b c hab hbc => by
        simp only [ask_le, decide_eq_true_eq] at *
        exact le_trans hab hbc)
      (fun a b => by
        simp only [ask_le, Bool.or_eq_true, decide_eq_true_eq]
        exact le_total a.price b.price)
      asks
    exact h.imp (fun {a b} hab => by
      simpa only [ask_le, decide_eq_true_eq] using hab)

/-! ## Ask-arbitrage execution (`apps/arb_runner.py`, `src/src/bot.py`) -/

/-- Python `OrderResult` (src/src/bot.py): outcome of one submitted order. -/
structure OrderResult where
  success : Bool
  order_id : Option String := none
  status : Option String := none
  message : String := ""

/-- One leg of the batch request built by `AskArbStrategy._handle_arb`
(the dicts passed to `bot.place_orders_batch`). -/
structure BatchOrder where
  token_id : String
  price : ℚ
  size : ℚ
  side : String
deriving DecidableEq

/-- Python `ArbTrade`: record of an arbitrage trade pair. -/
structure ArbTrade where
  id : ℕ
  up_ask : ℚ
  down_ask : ℚ
  ask_sum : ℚ
  spread : ℚ
  size : ℚ
  timestamp : ℚ
  up_order_ok : Bool := false
  down_order_ok : Bool := false
deriving DecidableEq

/-- Python `ArbTrade.profit_per_pair = self.spread * self.size`. -/
def ArbTrade.profit_per_pair (t : ArbTrade) : ℚ := t.spread * t.size

/-- Python `ArbTrade.both_filled = self.up_order_ok and self.down_order_ok`. -/
def ArbTrade.both_filled (t : ArbTrade) : Bool := t.up_order_ok && t.down_order_ok

/-- The mutable state of `AskArbStrategy` (configuration plus session
accumulators).  `opportunities_seen` is touched only by `handle_book`. -/
structure StratState where
  coin : String
  trade_size : ℚ
  min_spread : ℚ
  cooldown_seconds : ℚ
  max_trades : ℕ
  price_buffer : ℚ
  trades : List ArbTrade
  total_invested : ℚ
  total_guaranteed_return : ℚ
  last_trade_time : ℚ
  opportunities_seen : ℕ

/-- Python `AskArbStrategy.trade_count = len(self.trades)`. -/
def StratState.trade_count (s : StratState) : ℕ := s.trades.length

/-- Python `AskArbStrategy.total_profit`: sum of `profit_per_pair` over the trades
with `both_filled`. -/
def StratState.total_profit (s : StratState) : ℚ :=
  ((s.trades.filter (fun t => t.both_filled)).map ArbTrade.profit_per_pair).sum

/-- Python `AskArbStrategy.can_trade` at wall-clock `now` (`time.time()`). -/
def StratState.can_trade (s : StratState) (now : ℚ) : Bool :=
  if s.max_trades ≤ s.trade_count then false
  else if now - s.last_trade_time < s.cooldown_seconds then false
  else true

/-- Python `AskArbStrategy._handle_arb`.  `bot_present` models `self.bot` being
set; `up_token`/`down_token` model `self.market.token_ids.get(...)` (with
`none` for a missing or empty token id, which Python treats as falsy);
`results` is the response of `bot.place_orders_batch` for the submitted
batch.  Returns the updated state together with the batch of orders
submitted (`none` when the attempt returns before submitting). -/
def StratState.handle_arb (s : StratState) (bot_present : Bool)
    (up_token down_token : Option String)
    (up_ask down_ask ask_sum spread now : ℚ)
    (results : List OrderResult) : StratState × Option (List BatchOrder) :=
  if !(s.can_trade now) || !bot_present then (s, none)
  else
    let actual_spread := spread - 2 * s.price_buffer
    if actual_spread ≤ 0 then (s, none)
    else
      let trade : ArbTrade :=
        { id := s.trade_count + 1, up_ask := up_ask, down_ask := down_ask,
          ask_sum := ask_sum, spread := spread, size := s.trade_size,
          timestamp := now }
      match up_token, down_token with
      | some ut, some dt =>
        let up_price := min (up_ask + s.price_buffer) (99/100)
        let down_price := min (down_ask + s.price_buffer) (99/100)
        let orders : List BatchOrder :=
          [{ token_id := ut, price := up_price, size := s.trade_size, side := "BUY" },
           { token_id := dt, price := down_price, size := s.trade_size, side := "BUY" }]
        let up_result := results.getD 0 { success := false, message := "No result for UP order" }
        let down_result := results.getD 1 { success := false, message := "No result for DOWN order" }
        let trade2 := { trade with up_order_ok := up_result.success,
                                   down_order_ok := down_result.success }
        let s2 := { s with trades := s.trades ++ [trade2], last_trade_time := now }
        let s3 :=
          if trade2.both_filled then
            { s2 with
                total_invested := s2.total_invested + (up_price + down_price) * s.trade_size,
                total_guaranteed_return := s2.total_guaranteed_return + s.trade_size }
          else s2
        (s3, some orders)
      | _, _ => (s, none)

/-- C2: a trade attempt works with the buffer-adjusted spread
`spread − 2·buffer`: when it is non-positive the attempt is skipped with no
state change (no trade record appended); otherwise the two legs are
submitted as one batch with limit prices `min(up_ask + buffer, 0.99)` and
`min(down_ask + buffer, 0.99)`, and a trade record for this spread and size
is appended regardless of the per-leg fill results. -/
theorem handle_arb_spec (s : StratState) (ut dt : String)
    (up_ask down_ask ask_sum spread now : ℚ)
    (hcan : s.can_trade now = true) :
    (spread - 2 * s.price_buffer ≤ 0 →
      ∀ results, s.handle_arb true (some ut) (some dt)
          up_ask down_ask ask_sum spread now results = (s, none)) ∧
    (0 < spread - 2 * s.price_buffer →
      ∀ results,
        (s.handle_arb true (some ut) (some dt)
            up_ask down_ask ask_sum spread now results).2
          = some
            [{ token_id := ut, price := min (up_ask + s.price_buffer) (99/100),
               size := s.trade_size, side := "BUY" },
             { token_id := dt, price := min (down_ask + s.price_buffer) (99/100),
               size := s.trade_size, side := "BUY" }] ∧
        ∃ t : ArbTrade,
          (s.handle_arb true (some ut) (some dt)
              up_ask down_ask ask_sum spread now results).1.trades
            = s.trades ++ [t] ∧
          t.spread = spread ∧ t.size = s.trade_size ∧ t.ask_sum = ask_sum) := by
  constructor
  · intro hle results
    simp [StratState.handle_arb, hcan, hle]
  · intro hpos results
    have hne : ¬ (spread - 2 * s.price_buffer ≤ 0) := by linarith
    constructor
    · simp [StratState.handle_arb, hcan, hne]
    · refine ⟨⟨s.trade_count + 1, up_ask, down_ask, ask_sum, spread, s.trade_size, now,
        (results.getD 0 { success := false, message := "No result for UP order" }).success,
        (results.getD 1 { success := false, message := "No result for DOWN order" }).success⟩,
        ?_, rfl, rfl, rfl⟩
      simp only [StratState.handle_arb, hcan, hne]
      simp only [Bool.not_true, Bool.or_self, Bool.false_eq_true, if_false, if_neg hne]
      split <;> rfl

/-- Sample strategy state used by concrete witnesses: fresh session with
`size=5`, `min_spread=0.02`, `cooldown=5`, `max_trades=10`, `buffer=0.01`. -/
def sampleStrat : StratState :=
  { coin := "ETH", trade_size := 5, min_spread := 2/100, cooldown_seconds := 5,
    max_trades := 10, price_buffer := 1/100, trades := [],
    total_invested := 0, total_guaranteed_return := 0, last_trade_time := 0,
    opportunities_seen := 0 }

/-- C2 witness: with `ask_sum = 0.95` (spread `0.05`), buffer `0.01`, the
batch is submitted with legs at `min(ask + 0.01, 0.99)`. -/
theorem handle_arb_spec_witness :
    (sampleStrat.handle_arb true (some "U") (some "D")
        (47/100) (48/100) (95/100) (5/100) 100 []).2
      = some
        [{ token_id := "U", price := min ((47:ℚ)/100 + sampleStrat.price_buffer) (99/100),
           size := sampleStrat.trade_size, side := "BUY" },
         { token_id := "D", price := min ((48:ℚ)/100 + sampleStrat.price_buffer) (99/100),
           size := sampleStrat.trade_size, side := "BUY" }] := by
  have h := handle_arb_spec sampleStrat "U" "D" (47/100) (48/100) (95/100) (5/100) 100
    (by simp [StratState.can_trade, StratState.trade_count, sampleStrat]; norm_num)
  exact (h.2 (by simp [sampleStrat]; norm_num) []).1

/-- Sum-over-filtered-trades rewritten as a sum of per-trade contributions. -/
theorem filter_profit_sum (l : List ArbTrade) :
    ((l.filter (fun t => t.both_filled)).map ArbTrade.profit_per_pair).sum
      = (l.map (fun t => if t.both_filled then t.spread * t.size else 0)).sum := by
  induction l with
  | nil => rfl
  | cons t ts ih =>
    by_cases h : t.both_filled
    · simp [h, ih, ArbTrade.profit_per_pair]
    · simp [h, ih]

/-- C5: `total_profit` sums `profit_per_pair = spread × size` over exactly
the trades whose both legs filled, and a 2-leg batch whose second leg fails
appends a record with `up_order_ok = true`, `down_order_ok = false`,
`both_filled = false` that contributes zero to `total_profit`. -/
theorem total_profit_filled_only (s : StratState) (ut dt : String)
    (up_ask down_ask ask_sum spread now : ℚ) (r1 r2 : OrderResult)
    (hcan : s.can_trade now = true) (hpos : 0 < spread - 2 * s.price_buffer)
    (h1 : r1.success = true) (h2 : r2.success = false) :
    s.total_profit
      = (s.trades.map (fun t => if t.both_filled then t.spread * t.size else 0)).sum ∧
    ∃ t : ArbTrade,
      (s.handle_arb true (some ut) (some dt)
          up_ask down_ask ask_sum spread now [r1, r2]).1.trades
        = s.trades ++ [t] ∧
      t.up_order_ok = true ∧ t.down_order_ok = false ∧ t.both_filled = false ∧
      (s.handle_arb true (some ut) (some dt)
          up_ask down_ask ask_sum spread now [r1, r2]).1.total_profit
        = s.total_profit := by
  have hne : ¬ (spread - 2 * s.price_buffer ≤ 0) := by linarith
  constructor
  · exact filter_profit_sum s.trades
  · refine ⟨⟨s.trade_count + 1, up_ask, down_ask, ask_sum, spread, s.trade_size, now,
        r1.success, r2.success⟩, ?_, h1, h2, ?_, ?_⟩
    · simp only [StratState.handle_arb, hcan, hne]
      simp only [Bool.not_true, Bool.or_self, Bool.false_eq_true, if_false, if_neg hne]
      simp only [List.getD, List.getElem?_cons_zero, List.getElem?_cons_succ, Option.getD_some]
      split <;> rfl
    · simp [ArbTrade.both_filled, h1, h2]
    · simp only [StratState.handle_arb, hcan, hne]
      simp only [Bool.not_true, Bool.or_self, Bool.false_eq_true, if_false, if_neg hne]
      simp only [List.getD, List.getElem?_cons_zero, List.getElem?_cons_succ, Option.getD_some]
      have hbf : (⟨s.trade_count + 1, up_ask, down_ask, ask_sum, spread, s.trade_size, now,
          r1.success, r2.success⟩ : ArbTrade).both_filled = false := by
        simp [ArbTrade.both_filled, h1, h2]
      rw [if_neg (by simp [hbf])]
      simp [StratState.total_profit, List.filter_append, hbf]

/-- C5 witness: concrete partial batch (`r1` ok, `r2` failed) on the sample
strategy state. -/
theorem total_profit_filled_only_witness :
    ∃ t : ArbTrade,
      (sampleStrat.handle_arb true (some "U") (some "D")
          (47/100) (48/100) (95/100) (5/100) 100
          [{ success := true }, { success := false }]).1.trades
        = sampleStrat.trades ++ [t] ∧
      t.up_order_ok = true ∧ t.down_order_ok = false ∧ t.both_filled = false ∧
      (sampleStrat.handle_arb true (some "U") (some "D")
          (47/100) (48/100) (95/100) (5/100) 100
          [{ success := true }, { success := false }]).1.total_profit
        = sampleStrat.total_profit := by
  have h := total_profit_filled_only sampleStrat "U" "D"
    (47/100) (48/100) (95/100) (5/100) 100
    { success := true } { success := false }
    (by simp [StratState.can_trade, StratState.trade_count, sampleStrat]; norm_num)
    (by simp [sampleStrat]; norm_num) rfl rfl
  exact h.2

/-! ## Price tracker (`lib/price_tracker.py`) -/

/-- Python `PricePoint` (timestamp, price, side). -/
structure PricePoint where
  timestamp : ℚ
  price : ℚ
  side : String
deriving DecidableEq

/-- Python `FlashCrashEvent`. -/
structure FlashCrashEvent where
  side : String
  old_price : ℚ
  new_price : ℚ
  drop : ℚ
  timestamp : ℚ
deriving DecidableEq

/-- Python `PriceTracker`: the per-side histories are `deque(maxlen=max_history)`
ring buffers keyed exactly by "up" and "down" (see `__post_init__`). -/
structure PriceTracker where
  lookback_seconds : ℚ
  drop_threshold : ℚ
  max_history : ℕ
  up : List PricePoint
  down : List PricePoint

/-- The tracker right after `__post_init__`: both deques empty. -/
def PriceTracker.init (lookback drop_thr : ℚ) (max_history : ℕ) : PriceTracker :=
  { lookback_seconds := lookback, drop_threshold := drop_thr,
    max_history := max_history, up := [], down := [] }

/-- Python `deque(maxlen=m).append`: append on the right, evicting from the left
when the buffer is full. -/
def appendCap (m : ℕ) (l : List PricePoint) (p : PricePoint) : List PricePoint :=
  let l2 := l ++ [p]
  l2.drop (l2.length - m)

/-- The deque held by `self._history[side]` ("up"/"down" only). -/
def PriceTracker.histFor (tr : PriceTracker) (side : String) : List PricePoint :=
  if side = "up" then tr.up else if side = "down" then tr.down else []

/-- Python `PriceTracker.record(side, price, ts)`: no-op for a side outside the
history dict or a non-positive price, else append to the side's deque. -/
def PriceTracker.record (tr : PriceTracker) (side : String) (price ts : ℚ) :
    PriceTracker :=
  if side ≠ "up" ∧ side ≠ "down" then tr
  else if price ≤ 0 then tr
  else if side = "up" then
    { tr with up := appendCap tr.max_history tr.up ⟨ts, price, side⟩ }
  else
    { tr with down := appendCap tr.max_history tr.down ⟨ts, price, side⟩ }

/-- The in-window test of `detect_flash_crash`:
`now - point.timestamp <= self.lookback_seconds`. -/
def inWindow (tr : PriceTracker) (now : ℚ) (p : PricePoint) : Bool :=
  decide (now - p.timestamp ≤ tr.lookback_seconds)

/-- The body of `detect_flash_crash` for one side `s` of `sides_to_check`:
skip an unknown side or a history shorter than 2; take `history[-1]` as the
current price and the first point still inside the lookback window
(scanning from the earliest retained point) as the old price; fire iff
`old - current >= drop_threshold`. -/
def PriceTracker.detectSide (tr : PriceTracker) (now : ℚ) (s : String) :
    Option FlashCrashEvent :=
  if s ≠ "up" ∧ s ≠ "down" then none
  else
    let history := tr.histFor s
    if history.length < 2 then none
    else
      match history.getLast? with
      | none => none
      | some lastPt =>
        match history.find? (inWindow tr now) with
        | none => none
        | some oldPt =>
          let drop := oldPt.price - lastPt.price
          if tr.drop_threshold ≤ drop then
            some ⟨s, oldPt.price, lastPt.price, drop, now⟩
          else none

/-- Python `PriceTracker.detect_flash_crash(side)`: with a side given, check that
side only; with `side=None`, check "up" then "down" and return the first
event found. -/
def PriceTracker.detect_flash_crash (tr : PriceTracker) (now : ℚ)
    (side : Option String) : Option FlashCrashEvent :=
  match side with
  | some s => tr.detectSide now s
  | none =>
    match tr.detectSide now "up" with
    | some e => some e
    | none => tr.detectSide now "down"

/-- C3: for a given side, `detect_flash_crash` returns no event when the
side has fewer than 2 recorded points or no retained point lies inside the
lookback window; otherwise, with `old` the earliest retained point inside
the window and `latest` the most recent point, it returns exactly the event
`⟨side, old.price, latest.price, old.price − latest.price, now⟩` iff
`old.price − latest.price ≥ drop_threshold`, and no event otherwise. -/
theorem detect_flash_crash_spec (tr : PriceTracker) (now : ℚ) (s : String)
    (hs : s = "up" ∨ s = "down") :
    ((tr.histFor s).length < 2 → tr.detect_flash_crash now (some s) = none) ∧
    ((tr.histFor s).find? (inWindow tr now) = none →
      tr.detect_flash_crash now (some s) = none) ∧
    (2 ≤ (tr.histFor s).length →
      ∀ oldPt latest,
        (tr.histFor s).find? (inWindow tr now) = some oldPt →
        (tr.histFor s).getLast? = some latest →
        (tr.drop_threshold ≤ oldPt.price - latest.price →
          tr.detect_flash_crash now (some s)
            = some ⟨s, oldPt.price, latest.price, oldPt.price - latest.price, now⟩) ∧
        (oldPt.price - latest.price < tr.drop_threshold →
          tr.detect_flash_crash now (some s) = none)) := by
  have hs2 : ¬ (s ≠ "up" ∧ s ≠ "down") := by
    rcases hs with h | h <;> simp [h]
  refine ⟨?_, ?_, ?_⟩
  · intro hlen
    simp [PriceTracker.detect_flash_crash, PriceTracker.detectSide, hs2, hlen]
  · intro hfind
    simp only [PriceTracker.detect_flash_crash, PriceTracker.detectSide, if_neg hs2]
    split
    · rfl
    · rw [hfind]
      cases (tr.histFor s).getLast? <;> rfl
  · intro hlen oldPt latest hfind hlast
    have hlen2 : ¬ ((tr.histFor s).length < 2) := by omega
    constructor
    · intro hthr
      simp only [PriceTracker.detect_flash_crash, PriceTracker.detectSide,
        if_neg hs2, if_neg hlen2, hlast, hfind, if_pos hthr]
    · intro hthr
      have : ¬ tr.drop_threshold ≤ oldPt.price - latest.price := by linarith
      simp only [PriceTracker.detect_flash_crash, PriceTracker.detectSide,
        if_neg hs2, if_neg hlen2, hlast, hfind, if_neg this]

/-- Sample tracker for concrete witnesses: lookback 10 s, threshold 0.3,
"up" prices 0.8 (at t=95) then 0.4 (at t=99). -/
def sampleTracker : PriceTracker :=
  ⟨10, 3/10, 100, [⟨95, 8/10, "up"⟩, ⟨99, 4/10, "up"⟩], []⟩

/-- C3 witness: a crash on "up": points at prices 0.8 (old, inside a 10 s
window) and 0.4 (latest), threshold 0.3, drop 0.4. -/
theorem detect_flash_crash_spec_witness :
    sampleTracker.detect_flash_crash 100 (some "up")
      = some ⟨"up", 8/10, 4/10, 8/10 - 4/10, 100⟩ := by
  have hfind : List.find? (inWindow sampleTracker 100)
      [⟨95, 8/10, "up"⟩, ⟨99, 4/10, "up"⟩] = some ⟨95, 8/10, "up"⟩ := by
    rw [List.find?_cons_of_pos]
    simp only [inWindow, decide_eq_true_eq, sampleTracker]
    norm_num
  have hhist : sampleTracker.histFor "up" = [⟨95, 8/10, "up"⟩, ⟨99, 4/10, "up"⟩] := by
    simp [PriceTracker.histFor, sampleTracker]
  have h := detect_flash_crash_spec sampleTracker 100 "up" (Or.inl rfl)
  rw [hhist] at h
  have hres := (h.2.2 (by norm_num) ⟨95, 8/10, "up"⟩ ⟨99, 4/10, "up"⟩ hfind (by simp)).1
    (by simp only [sampleTracker]; norm_num)
  exact hres

/-- All retained points of both sides have strictly positive prices. -/
def PriceTracker.allPos (tr : PriceTracker) : Prop :=
  (∀ p ∈ tr.up, 0 < p.price) ∧ (∀ p ∈ tr.down, 0 < p.price)

/-- C10: `record` is a silent no-op for a non-positive price or an unknown
side; consequently, starting from a fresh tracker, any sequence of `record`
calls leaves only strictly positive prices in the history, and any event
`detect_flash_crash` produces has `new_price > 0`. -/
theorem record_positive_invariant :
    (∀ (tr : PriceTracker) (side : String) (price ts : ℚ),
      price ≤ 0 ∨ (side ≠ "up" ∧ side ≠ "down") → tr.record side price ts = tr) ∧
    (∀ (lookback drop_thr : ℚ) (m : ℕ) (ops : List (String × ℚ × ℚ)),
      (ops.foldl (fun tr op => tr.record op.1 op.2.1 op.2.2)
        (PriceTracker.init lookback drop_thr m)).allPos) ∧
    (∀ (tr : PriceTracker) (now : ℚ) (side : Option String) (e : FlashCrashEvent),
      tr.allPos → tr.detect_flash_crash now side = some e → 0 < e.new_price) := by
  have hnoop : ∀ (tr : PriceTracker) (side : String) (price ts : ℚ),
      price ≤ 0 ∨ (side ≠ "up" ∧ side ≠ "down") → tr.record side price ts = tr := by
    intro tr side price ts h
    rcases h with h | h
    · by_cases hside : side ≠ "up" ∧ side ≠ "down"
      · simp [PriceTracker.record, hside]
      · simp [PriceTracker.record, hside, h]
    · simp [PriceTracker.record, h]
  have hpres : ∀ (tr : PriceTracker) (side : String) (price ts : ℚ),
      tr.allPos → (tr.record side price ts).allPos := by
    intro tr side price ts hpos
    by_cases hside : side ≠ "up" ∧ side ≠ "down"
    · simpa [PriceTracker.record, hside] using hpos
    · by_cases hp : price ≤ 0
      · simpa [PriceTracker.record, hside, hp] using hpos
      · by_cases hup : side = "up"
        · simp only [PriceTracker.record, if_neg hside, if_neg hp, if_pos hup]
          refine ⟨?_, hpos.2⟩
          intro p hpmem
          have : p ∈ tr.up ++ [(⟨ts, price, side⟩ : PricePoint)] :=
            List.mem_of_mem_drop hpmem
          rcases List.mem_append.mp this with h | h
          · exact hpos.1 p h
          · simp only [List.mem_singleton] at h
            rw [h]
            linarith
        · simp only [PriceTracker.record, if_neg hside, if_neg hp, if_neg hup]
          refine ⟨hpos.1, ?_⟩
          intro p hpmem
          have : p ∈ tr.down ++ [(⟨ts, price, side⟩ : PricePoint)] :=
            List.mem_of_mem_drop hpmem
          rcases List.mem_append.mp this with h | h
          · exact hpos.2 p h
          · simp only [List.mem_singleton] at h
            rw [h]
            linarith
  have hside_pos : ∀ (tr : PriceTracker) (now : ℚ) (s : String) (e : FlashCrashEvent),
      tr.allPos → tr.detectSide now s = some e → 0 < e.new_price := by
    intro tr now s e hpos hdet
    by_cases hs : s ≠ "up" ∧ s ≠ "down"
    · simp [PriceTracker.detectSide, hs] at hdet
    · simp only [PriceTracker.detectSide, if_neg hs] at hdet
      split at hdet
      · exact absurd hdet (by simp)
      · rcases hl : (tr.histFor s).getLast? with - | lastPt
        · rw [hl] at hdet
          exact absurd hdet (by simp)
        · rw [hl] at hdet
          rcases hf : List.find? (inWindow tr now) (tr.histFor s) with - | oldPt
          · rw [hf] at hdet
            exact absurd hdet (by simp)
          · rw [hf] at hdet
            simp only at hdet
            split at hdet
            · have hmem : lastPt ∈ tr.histFor s := List.mem_of_mem_getLast? hl
              have hlastpos : 0 < lastPt.price := by
                by_cases hu : s = "up"
                · exact hpos.1 lastPt (by simpa [PriceTracker.histFor, hu] using hmem)
                · have hd : s = "down" := by tauto
                  exact hpos.2 lastPt (by simpa [PriceTracker.histFor, hd] using hmem)
              cases hdet
              simpa using hlastpos
            · exact absurd hdet (by simp)
  refine ⟨hnoop, ?_, ?_⟩
  · intro lookback drop_thr m ops
    have hstep : ∀ (l : List (String × ℚ × ℚ)) (tr : PriceTracker), tr.allPos →
        (l.foldl (fun tr op => tr.record op.1 op.2.1 op.2.2) tr).allPos := by
      intro l
      induction l with
      | nil => intro tr h; exact h
      | cons op ops ih =>
        intro tr h
        exact ih _ (hpres tr op.1 op.2.1 op.2.2 h)
    exact hstep ops _ ⟨by simp [PriceTracker.init], by simp [PriceTracker.init]⟩
  · intro tr now side e hpos hdet
    match side with
    | some s => exact hside_pos tr now s e hpos hdet
    | none =>
      simp only [PriceTracker.detect_flash_crash] at hdet
      split at hdet
      · rename_i e' hup
        cases hdet
        exact hside_pos tr now "up" e hpos hup
      · exact hside_pos tr now "down" e hpos hdet

/-- Concrete evaluation of the detector on `sampleTracker` (used to feed
the C10 witness a concrete produced event). -/
theorem sampleTracker_detect_eval :
    sampleTracker.detect_flash_crash 100 (some "up")
      = some ⟨"up", 8/10, 4/10, 8/10 - 4/10, 100⟩ := by
  have hhist : sampleTracker.histFor "up" = [⟨95, 8/10, "up"⟩, ⟨99, 4/10, "up"⟩] := by
    simp [PriceTracker.histFor, sampleTracker]
  have hfind : List.find? (inWindow sampleTracker 100)
      [⟨95, 8/10, "up"⟩, ⟨99, 4/10, "up"⟩] = some ⟨95, 8/10, "up"⟩ := by
    rw [List.find?_cons_of_pos]
    simp only [inWindow, decide_eq_true_eq, sampleTracker]
    norm_num
  simp only [PriceTracker.detect_flash_crash, PriceTracker.detectSide]
  rw [hhist, hfind]
  norm_num [sampleTracker]

/-- C10 witness: a zero-price `record` is a no-op, and the concrete crash
event the detector produces from positive recorded prices has a positive
`new_price`. -/
theorem record_positive_invariant_witness :
    (PriceTracker.init 10 (3/10) 100).record "up" 0 50 = PriceTracker.init 10 (3/10) 100 ∧
    0 < (FlashCrashEvent.mk "up" (8/10) (4/10) (8/10 - 4/10) 100).new_price := by
  constructor
  · exact record_positive_invariant.1 (PriceTracker.init 10 (3/10) 100) "up" 0 50
      (Or.inl le_rfl)
  · refine record_positive_invariant.2.2 sampleTracker 100 (some "up")
      ⟨"up", 8/10, 4/10, 8/10 - 4/10, 100⟩ ⟨?_, ?_⟩ sampleTracker_detect_eval
    · intro p hp
      simp only [sampleTracker, List.mem_cons, List.not_mem_nil, or_false] at hp
      rcases hp with h | h <;> (rw [h]; norm_num)
    · intro p hp
      simp [sampleTracker] at hp

/-! ## Position manager (`lib/position_manager.py`) -/

/-- Python `Position`. -/
structure Position where
  id : String
  side : String
  token_id : String
  entry_price : ℚ
  size : ℚ
  entry_time : ℚ
  order_id : Option String := none
  take_profit_delta : ℚ := 10/100
  stop_loss_delta : ℚ := 5/100
deriving DecidableEq

/-- Python `d[k] = v` on an insertion-ordered dict modelled as an
association list: overwrite in place if the key exists, else append. -/
def dictInsert {α : Type} (l : List (String × α)) (k : String) (v : α) :
    List (String × α) :=
  if (l.map Prod.fst).contains k then
    l.map (fun kv => if kv.1 = k then (k, v) else kv)
  else l ++ [(k, v)]

/-- Python `PositionManager`: `_positions` is the id-keyed dict, `_positions_by_side`
the side→id index. -/
structure PositionManager where
  take_profit : ℚ := 10/100
  stop_loss : ℚ := 5/100
  max_positions : ℕ := 1
  positions : List (String × Position) := []
  positions_by_side : List (String × String) := []
  trades_opened : ℕ := 0
  trades_closed : ℕ := 0
  total_pnl : ℚ := 0
  winning_trades : ℕ := 0
  losing_trades : ℕ := 0
deriving DecidableEq

/-- Python `PositionManager.position_count = len(self._positions)`. -/
def PositionManager.position_count (m : PositionManager) : ℕ := m.positions.length

/-- Python `PositionManager.can_open_position = position_count < max_positions`. -/
def PositionManager.can_open_position (m : PositionManager) : Bool :=
  decide (m.position_count < m.max_positions)

/-- Python `side in self._positions_by_side`. -/
def PositionManager.hasSideKey (m : PositionManager) (side : String) : Bool :=
  (m.positions_by_side.map Prod.fst).contains side

/-- Python `PositionManager.open_position`.  `pos_id` stands for the fresh
`str(uuid.uuid4())[:8]` identifier and `now` for `time.time()`, both
supplied by the environment. -/
def PositionManager.open_position (m : PositionManager) (side token_id : String)
    (entry_price size : ℚ) (order_id : Option String) (pos_id : String) (now : ℚ) :
    Option Position × PositionManager :=
  if !m.can_open_position then (none, m)
  else if m.hasSideKey side then (none, m)
  else
    let position : Position :=
      ⟨pos_id, side, token_id, entry_price, size, now, order_id, m.take_profit, m.stop_loss⟩
    (some position,
      { m with
          positions := dictInsert m.positions pos_id position
          positions_by_side := dictInsert m.positions_by_side side pos_id
          trades_opened := m.trades_opened + 1 })

/-- C4: `open_position` returns nothing and leaves the whole manager state
unchanged when the side already holds an open position or the open-position
count has reached `max_positions`; otherwise it stores a new `Position`
under the fresh identifier, indexes it by side, and increments
`trades_opened` by exactly one. -/
theorem open_position_spec (m : PositionManager) (side token_id : String)
    (entry_price size : ℚ) (order_id : Option String) (pos_id : String) (now : ℚ) :
    ((m.hasSideKey side = true ∨ m.max_positions ≤ m.position_count) →
      m.open_position side token_id entry_price size order_id pos_id now = (none, m)) ∧
    (m.hasSideKey side = false → m.position_count < m.max_positions →
      (m.positions.map Prod.fst).contains pos_id = false →
      ∃ p : Position,
        m.open_position side token_id entry_price size order_id pos_id now
          = (some p,
             { m with
                 positions := m.positions ++ [(pos_id, p)]
                 positions_by_side := dictInsert m.positions_by_side side pos_id
                 trades_opened := m.trades_opened + 1 }) ∧
        p.id = pos_id ∧ p.side = side) := by
  constructor
  · rintro (h | h)
    · by_cases hc : m.can_open_position
      · simp [PositionManager.open_position, hc, h]
      · simp [PositionManager.open_position, hc]
    · have hc : m.can_open_position = false := by
        simp [PositionManager.can_open_position]
        omega
      simp [PositionManager.open_position, hc]
  · intro hside hcount hfresh
    have hc : m.can_open_position = true := by
      simp [PositionManager.can_open_position, hcount]
    refine ⟨⟨pos_id, side, token_id, entry_price, size, now, order_id,
        m.take_profit, m.stop_loss⟩, ?_, rfl, rfl⟩
    simp only [PositionManager.open_position, hc, hside, Bool.not_true,
      Bool.false_eq_true, if_false]
    have hins : dictInsert m.positions pos_id
        (⟨pos_id, side, token_id, entry_price, size, now, order_id,
          m.take_profit, m.stop_loss⟩ : Position)
        = m.positions ++ [(pos_id,
            ⟨pos_id, side, token_id, entry_price, size, now, order_id,
             m.take_profit, m.stop_loss⟩)] := by
      simp only [dictInsert, hfresh, Bool.false_eq_true, if_false]
    rw [hins]

/-- C4 witness: on an empty manager (capacity 1) the "up" side opens and is
stored; the explicit state is checked by the theorem instance. -/
theorem open_position_spec_witness :
    ∃ p : Position,
      ({} : PositionManager).open_position "up" "tok" (55/100) 5 none "ab12cd34" 1000
        = (some p,
           { ({} : PositionManager) with
               positions := [("ab12cd34", p)]
               positions_by_side := dictInsert [] "up" "ab12cd34"
               trades_opened := 1 }) ∧
      p.id = "ab12cd34" ∧ p.side = "up" := by
  have h := (open_position_spec {} "up" "tok" (55/100) 5 none "ab12cd34" 1000).2
    (by simp [PositionManager.hasSideKey]) (by simp [PositionManager.position_count])
    (by simp)
  simpa using h

/-! ## Market manager (`lib/market_manager.py`) -/

/-- Python `str.split("-")` for the single-character separator the source
uses, implemented on the character list of the string. -/
def splitDash : List Char → List (List Char)
  | [] => [[]]
  | c :: cs =>
    let r := splitDash cs
    if c = '-' then [] :: r
    else
      match r with
      | [] => [[c]]
      | g :: gs => (c :: g) :: gs

/-- Numeric value of a decimal digit character. -/
def digitVal (c : Char) : ℕ := c.toNat - '0'.toNat

/-- Python `int(ts)` for a string of decimal digits. -/
def digitsToNat (l : List Char) : ℕ :=
  l.foldl (fun acc c => 10 * acc + digitVal c) 0

/-- Python `MarketInfo`.  `end_ts` holds the result of `end_timestamp()`: `some t`
when `end_date` parses as an ISO-8601 time with Unix timestamp `t`, `none`
when `end_date` is empty or unparseable (the ISO datetime parsing itself is
delegated to the standard library by the source and kept abstract here). -/
structure MarketInfo where
  slug : String
  question : String
  end_ts : Option Int
  token_ids : List (String × String)
  accepting_orders : Bool

/-- Python `MarketInfo.slug_timestamp`: `None` for an empty slug; take the last
`"-"`-separated piece of the slug; `None` unless it is a non-empty digit
string; else its integer value. -/
def MarketInfo.slug_timestamp (m : MarketInfo) : Option Int :=
  if m.slug.data = [] then none
  else
    let ts := (splitDash m.slug.data).getLastD []
    if ts ≠ [] ∧ ts.all Char.isDigit then some (digitsToNat ts : Int) else none

/-- Python `MarketManager._market_sort_key`:
`market.slug_timestamp() or market.end_timestamp()` — Python `or` falls
through on a falsy left operand, i.e. on `None` and on `0`. -/
def market_sort_key (m : MarketInfo) : Option Int :=
  match m.slug_timestamp with
  | some t => if t = 0 then m.end_ts else some t
  | none => m.end_ts

/-- Python `set(market.token_ids.values())`. -/
def tokenSet (m : MarketInfo) : Finset String := (m.token_ids.map Prod.snd).toFinset

/-- Python `MarketManager._should_switch_market(old_market, new_market)`. -/
def should_switch_market (old : Option MarketInfo) (nw : MarketInfo) : Bool :=
  match old with
  | none => true
  | some o =>
    if tokenSet nw = tokenSet o then false
    else
      match market_sort_key o, market_sort_key nw with
      | some old_key, some new_key => if new_key ≤ old_key then false else true
      | _, _ => true

/-- C6: `_should_switch_market` is true when there is no old market, false
whenever the token-id sets coincide (whatever the slugs), and when the
token sets differ it is true iff the new sort key is strictly later than
the old one or at least one of the two sort keys is unavailable. -/
theorem should_switch_market_spec (o nw : MarketInfo) :
    should_switch_market none nw = true ∧
    (tokenSet nw = tokenSet o → should_switch_market (some o) nw = false) ∧
    (tokenSet nw ≠ tokenSet o →
      (should_switch_market (some o) nw = true ↔
        market_sort_key o = none ∨ market_sort_key nw = none ∨
        ∃ ok nk : Int, market_sort_key o = some ok ∧ market_sort_key nw = some nk ∧
          ok < nk)) := by
  refine ⟨rfl, ?_, ?_⟩
  · intro h
    simp [should_switch_market, h]
  · intro h
    simp only [should_switch_market, if_neg h]
    rcases ho : market_sort_key o with - | ok <;> rcases hn : market_sort_key nw with - | nk
    · simp
    · simp
    · simp
    · constructor
      · intro hsw
        by_cases hle : nk ≤ ok
        · exfalso
          have hsw2 : (if nk ≤ ok then false else true) = true := hsw
          rw [if_pos hle] at hsw2
          exact absurd hsw2 (by simp)
        · exact Or.inr (Or.inr ⟨ok, nk, rfl, rfl, by omega⟩)
      · rintro (h | h | ⟨ok2, nk2, h1, h2, hlt⟩)
        · exact absurd h (by simp)
        · exact absurd h (by simp)
        · cases h1; cases h2
          show (if nk ≤ ok then false else true) = true
          rw [if_neg (by omega)]

/-- C6 witness: differing token sets and slug timestamps 100 < 200 force a
switch. -/
theorem should_switch_market_spec_witness :
    should_switch_market
      (some ⟨"btc-updown-100", "q", none, [("up", "A"), ("down", "B")], true⟩)
      ⟨"btc-updown-200", "q", none, [("up", "C"), ("down", "D")], true⟩ = true := by
  have h := (should_switch_market_spec
    ⟨"btc-updown-100", "q", none, [("up", "A"), ("down", "B")], true⟩
    ⟨"btc-updown-200", "q", none, [("up", "C"), ("down", "D")], true⟩).2.2
  refine (h ?_).mpr (Or.inr (Or.inr ⟨100, 200, ?_, ?_, by omega⟩))
  · decide
  · decide
  · decide

/-- C7 counterexample: a market whose `end_date` parses (end timestamp 200)
but whose slug embeds timestamp 100: the sort key used by the switch
decision is 100, the slug timestamp, not the end timestamp — so the end
timestamp is not the primary key. -/
theorem market_sort_key_not_end_first :
    ({ slug := "btc-updown-100", question := "q", end_ts := some 200,
       token_ids := [], accepting_orders := true } : MarketInfo).end_ts = some 200 ∧
    market_sort_key
      { slug := "btc-updown-100", question := "q", end_ts := some 200,
        token_ids := [], accepting_orders := true } = some 100 ∧
    ¬ market_sort_key
      { slug := "btc-updown-100", question := "q", end_ts := some 200,
        token_ids := [], accepting_orders := true } = some 200 := by
  refine ⟨rfl, ?_, ?_⟩ <;> decide

/-- C7 (amended): the sort key used by the market-switch decision is the
slug-embedded timestamp whenever it is available and non-zero; the end
timestamp is used only as a fallback when the slug timestamp is unavailable
(or zero, which Python's `or` also treats as absent). -/
theorem market_sort_key_slug_first (m : MarketInfo) :
    (∀ t : Int, m.slug_timestamp = some t → t ≠ 0 → market_sort_key m = some t) ∧
    ((m.slug_timestamp = none ∨ m.slug_timestamp = some 0) →
      market_sort_key m = m.end_ts) := by
  constructor
  · intro t ht hnz
    simp [market_sort_key, ht, hnz]
  · rintro (h | h) <;> simp [market_sort_key, h]

/-- C7 witness: slug `"btc-updown-100"` with a parseable end date: the sort
key is the slug timestamp 100. -/
theorem market_sort_key_slug_first_witness :
    market_sort_key
      { slug := "btc-updown-100", question := "q", end_ts := some 200,
        token_ids := [], accepting_orders := true } = some 100 := by
  exact (market_sort_key_slug_first _).1 100 (by decide) (by decide)

/-! ## Key vault (`src/src/crypto.py`)

`KeyManager` derives a Fernet key from the password with PBKDF2 over a
random salt and authenticated-encrypts the normalized private key.  The
cryptographic primitives are modelled ideally: the derived key is
identified with the (password, salt) pair that produced it (PBKDF2 as an
injective function), and a Fernet token records the key it was produced
under together with the plaintext, decrypting only under that same key
(authenticated encryption: a wrong key fails the tag check and raises
`InvalidToken`).  Python strings are handled as character lists so that the
normalisation steps compute. -/

/-- Python `str.strip()`: drop whitespace from both ends. -/
def stripChars (l : List Char) : List Char :=
  ((l.dropWhile Char.isWhitespace).reverse.dropWhile Char.isWhitespace).reverse

/-- Python `str.lower()` on the ASCII range (hex keys are ASCII). -/
def lowerChar (c : Char) : Char :=
  if 'A' ≤ c ∧ c ≤ 'Z' then Char.ofNat (c.toNat + 32) else c

/-- Python `str.lower()` over the characters of the string. -/
def lowerList (l : List Char) : List Char := l.map lowerChar

/-- Python `if key.startswith("0x"): key = key[2:]` (applied after lowering). -/
def drop0x (l : List Char) : List Char :=
  match l with
  | '0' :: 'x' :: rest => rest
  | _ => l

/-- The normalisation `KeyManager.encrypt` applies before validating and
encrypting: `key = private_key.strip().lower()`, then one `"0x"` removed. -/
def normalize_key (pk : String) : List Char :=
  drop0x (lowerList (stripChars pk.data))

/-- A hexadecimal digit as accepted by `int(_, 16)`. -/
def isHexDigitChar (c : Char) : Bool :=
  c.isDigit || ('a' ≤ c && c ≤ 'f') || ('A' ≤ c && c ≤ 'F')

/-- Python `str.split(sep)` for a one-character separator. -/
def splitSep (sep : Char) : List Char → List (List Char)
  | [] => [[]]
  | c :: cs =>
    let r := splitSep sep cs
    if c = sep then [] :: r
    else
      match r with
      | [] => [[c]]
      | g :: gs => (c :: g) :: gs

/-- Success of Python `int(s, 16)` on an already-stripped string: an
optional sign, an optional `0x`/`0X` prefix (one underscore may directly
follow it), then underscore-separated non-empty groups of hex digits. -/
def pyIntHexOk (s : List Char) : Bool :=
  let s1 := match s with
    | '+' :: rest => rest
    | '-' :: rest => rest
    | _ => s
  let hasPre : Bool := match s1 with
    | '0' :: 'x' :: _ => true
    | '0' :: 'X' :: _ => true
    | _ => false
  let s2 := if hasPre then s1.drop 2 else s1
  let s3 := match s2 with
    | '_' :: rest => if hasPre then rest else ['_']
    | _ => s2
  (splitSep '_' s3).all (fun g => !g.isEmpty && g.all isHexDigitChar)

/-- Ideal Fernet token: records the key it was produced under and the
plaintext; decryption succeeds only under the same key. -/
structure FernetToken where
  key : String × String
  plaintext : List Char
deriving DecidableEq

/-- Python `KeyManager._derive_key`, idealized: PBKDF2-HMAC-SHA256 keyed by the
password and salt, modelled as the (password, salt) pair itself. -/
def derive_key (password salt : String) : String × String := (password, salt)

/-- Python `Fernet(key).encrypt(plaintext)` in the ideal model. -/
def fernetEncrypt (k : String × String) (pt : List Char) : FernetToken := ⟨k, pt⟩

/-- Python `Fernet(key).decrypt(token)` in the ideal model: `none` models the
`InvalidToken` failure of the authentication-tag check. -/
def fernetDecrypt (k : String × String) (tok : FernetToken) : Option (List Char) :=
  if tok.key = k then some tok.plaintext else none

/-- The JSON envelope `{version, salt, encrypted, key_length}`.  `salt` and
`encrypted` are `none` when the entry is missing or not decodable — the
structurally malformed cases raising `KeyError`/`ValueError` in
`decrypt`. -/
structure EncEnvelope where
  version : ℕ := 1
  salt : Option String
  encrypted : Option FernetToken
  key_length : ℕ := 0

/-- The two failure conditions of `KeyManager.decrypt`:
`InvalidPasswordError` (from `InvalidToken`) and the `CryptoError`
"Invalid encrypted data" (from `KeyError`/`ValueError`). -/
inductive DecryptError
  | invalidPassword
  | corruptedData
deriving DecidableEq

/-- Python `KeyManager.encrypt(private_key, password)` with the manager's random
`salt`: validate, normalize, derive the key and build the envelope. -/
def KeyManager.encrypt (salt : String) (private_key password : String) :
    Except String EncEnvelope :=
  if private_key.data = [] then Except.error "Private key cannot be empty"
  else if password.data = [] ∨ password.length < 8 then
    Except.error "Password must be at least 8 characters"
  else
    let key := normalize_key private_key
    if ¬ pyIntHexOk key then Except.error "Invalid private key format"
    else Except.ok
      { version := 1, salt := some salt,
        encrypted := some (fernetEncrypt (derive_key password salt) key),
        key_length := key.length }

/-- Python `KeyManager.decrypt(encrypted_data, password)`: read the salt and token
from the envelope (failure → corrupted data), derive the key from the given
password, decrypt (tag failure → invalid password), and return the key with
a `"0x"` prefix. -/
def KeyManager.decrypt (env : EncEnvelope) (password : String) :
    Except DecryptError (List Char) :=
  match env.salt with
  | none => Except.error DecryptError.corruptedData
  | some salt =>
    match env.encrypted with
    | none => Except.error DecryptError.corruptedData
    | some tok =>
      match fernetDecrypt (derive_key password salt) tok with
      | none => Except.error DecryptError.invalidPassword
      | some key => Except.ok ('0' :: 'x' :: key)

/-- C9: for every hex-validating private key and password of length ≥ 8,
encryption succeeds and decrypting the produced envelope with the same
password returns the original key normalized to lowercase with a `0x`
prefix; decrypting it with any other password raises the invalid-password
error (never returning a value), while a structurally malformed envelope
raises the distinct corrupted-data error. -/
theorem encrypt_decrypt_roundtrip (salt pk pw : String)
    (hlen : 8 ≤ pw.length) (hpk : pk.data ≠ [])
    (hhex : pyIntHexOk (normalize_key pk) = true) :
    (∃ env : EncEnvelope,
      KeyManager.encrypt salt pk pw = Except.ok env ∧
      KeyManager.decrypt env pw = Except.ok ('0' :: 'x' :: normalize_key pk) ∧
      (∀ pw2 : String, pw2 ≠ pw →
        KeyManager.decrypt env pw2 = Except.error DecryptError.invalidPassword)) ∧
    (∀ env2 : EncEnvelope, env2.salt = none ∨ env2.encrypted = none →
      KeyManager.decrypt env2 pw = Except.error DecryptError.corruptedData) := by
  have hpwlen : ¬ (pw.data = [] ∨ pw.length < 8) := by
    rintro (h | h)
    · rw [String.length, h] at hlen
      simp at hlen
    · omega
  constructor
  · refine ⟨⟨1, some salt,
        some (fernetEncrypt (derive_key pw salt) (normalize_key pk)),
        (normalize_key pk).length⟩, ?_, ?_, ?_⟩
    · simp only [KeyManager.encrypt, if_neg hpk, if_neg hpwlen, hhex, not_true,
        Bool.true_eq_false, if_false]
    · simp [KeyManager.decrypt, fernetDecrypt, fernetEncrypt]
    · intro pw2 hne
      have hk : ¬ ((fernetEncrypt (derive_key pw salt) (normalize_key pk)).key
          = derive_key pw2 salt) := by
        simp only [fernetEncrypt, derive_key, Prod.mk.injEq]
        rintro ⟨h, -⟩
        exact hne h.symm
      simp [KeyManager.decrypt, fernetDecrypt, hk]
  · rintro env2 (h | h)
    · simp [KeyManager.decrypt, h]
    · rcases hs : env2.salt with - | s
      · simp [KeyManager.decrypt, hs]
      · simp [KeyManager.decrypt, hs, h]

/-- C9 witness: key `"0xABC1"` with password `"password1"`: decryption
returns `"0xabc1"`; the wrong password `"password2"` hits the
invalid-password error; an envelope with no salt is corrupted data. -/
theorem encrypt_decrypt_roundtrip_witness :
    (∃ env : EncEnvelope,
      KeyManager.encrypt "s0" "0xABC1" "password1" = Except.ok env ∧
      KeyManager.decrypt env "password1"
        = Except.ok ('0' :: 'x' :: normalize_key "0xABC1") ∧
      KeyManager.decrypt env "password2"
        = Except.error DecryptError.invalidPassword) ∧
    KeyManager.decrypt { salt := none, encrypted := none } "password1"
      = Except.error DecryptError.corruptedData := by
  have h := encrypt_decrypt_roundtrip "s0" "0xABC1" "password1"
    (by decide) (by decide) (by decide)
  obtain ⟨⟨env, h1, h2, h3⟩, h4⟩ := h
  exact ⟨⟨env, h1, h2, h3 "password2" (by decide)⟩,
    h4 { salt := none, encrypted := none } (Or.inl rfl)⟩

end PolyArb
